import Mathlib

/-!
Shallow embedding of `pkg/security/security_profile/dump/local_storage.go`
(package `dump` of the datadog-agent repository): the bounded local retention
store for activity-dump artifacts.

Modelling conventions:
* `time.Time` values are modelled as `Nat`, with `0` playing the role of Go's
  zero `time.Time` (`IsZero`), and `<` playing the role of `Time.Before`.
* Filesystem and observer side effects are recorded as an explicit `Event`
  trace; fallible OS calls (`compressWithGZip`, `os.Create`, `os.Chmod`,
  `file.Write`, `file.Close`, `os.Rename`, `os.Remove`) are driven by boolean
  outcome oracles carried in `PersistEnv` / passed to the constructor.
* The retention index `localDumps` is the third-party
  `simplelru.LRU[string, *[]string]`; its entries are modelled as an
  association list kept in most-recently-used-first order.
-/

/-- A single observable side effect of the store.
`notify` models `securityProfileManager.OnLocalStorageCleanup(paths)`,
`removeOk p` a successful `os.Remove(p)`, `removeFail p` a failed
`os.Remove(p)` (which the code only logs), and `incrDeleted` the
`deletedCount.Add(1)` increment. -/
inductive Event where
  | notify (paths : List String)
  | removeOk (path : String)
  | removeFail (path : String)
  | incrDeleted
deriving Repr, DecidableEq

/-- A telemetry emission of `SendTelemetry` (statsd `Gauge` / `Count`). -/
inductive Telemetry where
  | gauge (name : String) (value : Nat)
  | count (name : String) (value : Nat)
deriving Repr, DecidableEq

/-- Metric name constant from `pkg/security/metrics` (not part of the sampled
sources; the exact string is not load-bearing for any claim). -/
def MetricActivityDumpLocalStorageCount : String :=
  "datadog.runtime_security.activity_dump.local_storage.count"

/-- Metric name constant from `pkg/security/metrics` (not part of the sampled
sources; the exact string is not load-bearing for any claim). -/
def MetricActivityDumpLocalStorageDeleted : String :=
  "datadog.runtime_security.activity_dump.local_storage.deleted"

/-- The eviction callback installed by `NewActivityDumpLocalStorage`
(local_storage.go lines 77-95).  `hasObserver` models
`m.securityProfileManager != nil`; `removeSucceeds p` models whether
`os.Remove p` succeeds.  Returns the emitted event trace together with the
amount added to `deletedCount`. -/
def onEvict (hasObserver : Bool) (removeSucceeds : String → Bool)
    (filePaths : List String) : List Event × Nat :=
  if filePaths.length = 0 then ([], 0)
  else
    ((if hasObserver then [Event.notify filePaths] else []) ++
      filePaths.map (fun p =>
        if removeSucceeds p then Event.removeOk p else Event.removeFail p) ++
      [Event.incrDeleted], 1)

/-- The in-memory state of `ActivityDumpLocalStorage`:
the LRU capacity (`cfg.RuntimeSecurity.ActivityDumpLocalStorageMaxDumpsCount`),
the retention index `localDumps` (most-recently-used first), and the
`deletedCount` atomic counter. -/
structure ActivityDumpLocalStorage where
  capacity : Nat
  localDumps : List (String × List String)
  deletedCount : Nat
deriving Repr, DecidableEq

/-- Modelled from the spec: the retention index is the third-party
`simplelru.LRU` (hashicorp/golang-lru/v2), whose source is not part of this
repository.  Per the spec (§4.2), `Add` of a fresh key inserts it as most
recent and, if the length now exceeds the capacity, evicts exactly one entry,
the least recently touched (the back of the list); `Add` of a present key
moves it to the front and replaces its value.  Returns the new entry list and
the evicted entry, if any. -/
def lruAdd (cap : Nat) (entries : List (String × List String)) (key : String)
    (value : List String) :
    List (String × List String) × Option (String × List String) :=
  if entries.any (fun e => e.1 = key) then
    ((key, value) :: entries.filter (fun e => e.1 ≠ key), none)
  else
    let pushed := (key, value) :: entries
    if cap < pushed.length then (pushed.dropLast, pushed.getLast?)
    else (pushed, none)

/-- Modelled from the spec: `simplelru.LRU.Get` returns the stored value of a
present key and marks it most recently used (moves it to the front); an absent
key leaves the list untouched. -/
def lruGet (entries : List (String × List String)) (key : String) :
    Option (List String) × List (String × List String) :=
  match entries.find? (fun e => e.1 = key) with
  | some e => (some e.2, (key, e.2) :: entries.filter (fun x => x.1 ≠ key))
  | none => (none, entries)

/-- Applies `localDumps.Add key value` to the store, running the eviction
callback (with its `deletedCount` increment) when the add evicts an entry.
Shared by `Persist` and the constructor seeding loop, which both call
`adls.localDumps.Add` with the same installed callback. -/
def addWithEviction (hasObserver : Bool) (removeSucceeds : String → Bool)
    (storage : ActivityDumpLocalStorage) (key : String) (value : List String) :
    ActivityDumpLocalStorage × List Event :=
  let res := lruAdd storage.capacity storage.localDumps key value
  match res.2 with
  | none => ({ storage with localDumps := res.1 }, [])
  | some ev =>
      let cb := onEvict hasObserver removeSucceeds ev.2
      ({ storage with
          localDumps := res.1,
          deletedCount := storage.deletedCount + cb.2 }, cb.1)

/-- The per-call data of `config.StorageRequest` that `Persist` consults.
`getOutputPath` models `request.GetOutputPath(name)` (the config package is
not part of the sampled sources; the spec describes it as a path computed from
a template and the dump name, so it is kept abstract). -/
structure StorageRequest where
  compression : Bool
  outputDirectory : String
  getOutputPath : String → String

/-- Outcome oracles for the fallible OS and collaborator calls made during one
`Persist` call (in code order: gzip compression, `os.Create`, `os.Chmod`,
`file.Write`, `file.Close`, `os.Rename`), plus the environment seen by the
eviction callback should this call evict. -/
structure PersistEnv where
  compressOk : Bool
  createOk : Bool
  chmodOk : Bool
  writeOk : Bool
  closeOk : Bool
  renameOk : Bool
  hasObserver : Bool
  removeSucceeds : String → Bool

/-- `Persist` (local_storage.go lines 168-226).  Returns the Go error result,
the post-call store state, and the event trace of the call.  The error
branches mirror the code order: compression (only when requested), create,
chmod, write, close, rename; none of them touches `localDumps` or
`deletedCount`.  On success the dump is registered: a present identity has the
final path appended in place through the `*[]string` pointer returned by
`Get` (which also marks it most recently used), an absent identity is added,
possibly evicting the least recently used entry. -/
def Persist (storage : ActivityDumpLocalStorage) (env : PersistEnv)
    (request : StorageRequest) (name : String) :
    Except String Unit × ActivityDumpLocalStorage × List Event :=
  let outputPath := request.getOutputPath name
  if request.compression = true ∧ env.compressOk = false then
    (Except.error "compression failed", storage, [])
  else if env.createOk = false then
    (Except.error ("could not persist to file " ++ outputPath ++ ".tmp"), storage, [])
  else if env.chmodOk = false then
    (Except.error ("could not set mod for file " ++ outputPath ++ ".tmp"), storage, [])
  else if env.writeOk = false then
    (Except.error ("could not write to file " ++ outputPath ++ ".tmp"), storage, [])
  else if env.closeOk = false then
    (Except.error ("could not close file " ++ outputPath ++ ".tmp"), storage, [])
  else if env.renameOk = false then
    (Except.error ("could not rename file " ++ outputPath ++ ".tmp"), storage, [])
  else
    match lruGet storage.localDumps name with
    | (some filePaths, moved) =>
        (Except.ok (), { storage with
          localDumps := moved.map (fun e =>
            if e.1 = name then (e.1, filePaths ++ [outputPath]) else e) }, [])
    | (none, _) =>
        let r := addWithEviction env.hasObserver env.removeSucceeds storage name [outputPath]
        (Except.ok (), r.1, r.2)

/-- `SendTelemetry` (local_storage.go lines 229-242): a gauge of the index
size is emitted only when it is positive; `deletedCount.Swap(0)` always resets
the counter, and the count is emitted only when the swapped-out value is
positive. -/
def SendTelemetry (storage : ActivityDumpLocalStorage) :
    ActivityDumpLocalStorage × List Telemetry :=
  ({ storage with deletedCount := 0 },
    (if 0 < storage.localDumps.length then
      [Telemetry.gauge MetricActivityDumpLocalStorageCount storage.localDumps.length]
    else []) ++
    (if 0 < storage.deletedCount then
      [Telemetry.count MetricActivityDumpLocalStorageDeleted storage.deletedCount]
    else []))

/-- One directory entry as seen by the startup reconciliation: its file name,
whether `f.Info()` succeeds, and its modification time (`Nat`, `0` = Go zero
time). -/
structure RecFile where
  name : String
  infoOk : Bool
  modTime : Nat
deriving Repr, DecidableEq

/-- The `dumpFiles` struct (local_storage.go lines 32-36). -/
structure dumpFiles where
  Name : String
  Files : List String
  MTime : Nat
deriving Repr, DecidableEq

/-- `filepath.Ext`: the suffix beginning at the final dot of the file name,
or the empty string when there is no dot (directory entry names contain no
path separator). -/
def fileExt (s : String) : String :=
  if s.data.contains '.' then
    String.mk ('.' :: (s.data.reverse.takeWhile (fun c => c ≠ '.')).reverse)
  else ""

/-- `strings.TrimSuffix`: drops the suffix when present, else returns the
string unchanged. -/
def trimSuffix (s suf : String) : String :=
  if suf.data.isSuffixOf s.data then
    String.mk (s.data.take (s.data.length - suf.data.length))
  else s

/-- `filepath.Base` for directory entry names (which contain no path
separator and are nonempty). -/
def filepathBase (s : String) : String :=
  if s.isEmpty then "."
  else String.mk ((s.data.reverse.takeWhile (fun c => c ≠ '/')).reverse)

/-- `filepath.Join dir name` for a nonempty clean `dir` and a simple file
name. -/
def filepathJoin (dir name : String) : String :=
  if dir.isEmpty then name else dir ++ "/" ++ name

/-- The `MTime` update guard of local_storage.go lines 146-148, verbatim:
`if !ad.MTime.IsZero() && ad.MTime.Before(modTime) { ad.MTime = modTime }`. -/
def mtimeGuardUpdate (cur modTime : Nat) : Nat :=
  if cur ≠ 0 ∧ cur < modTime then modTime else cur

/-- Lines 137-148: look the derived dump name up in the grouping map (a fresh
`dumpFiles` has the zero `MTime`), append the joined file path, and apply the
`MTime` guard.  The Go map is modelled as a list in first-insertion order. -/
def addFileToDumps (dumps : List dumpFiles) (dumpName filePath : String)
    (modTime : Nat) : List dumpFiles :=
  if dumps.any (fun ad => ad.Name = dumpName) then
    dumps.map (fun ad =>
      if ad.Name = dumpName then
        { ad with Files := ad.Files ++ [filePath],
                  MTime := mtimeGuardUpdate ad.MTime modTime }
      else ad)
  else
    dumps ++ [{ Name := dumpName, Files := [filePath],
                MTime := mtimeGuardUpdate 0 modTime }]

/-- Lines 117-149, one directory entry: skip unknown extensions
(`knownFormat` models `config.ParseStorageFormat` succeeding; the config
package is not part of the sampled sources, so the recognized storage-format
extension set of the spec is kept abstract), skip entries whose `Info()`
fails, derive the dump name by stripping the extension (and the inner format
extension under `.gz`), and merge the file into the grouping map. -/
def snapshotStep (knownFormat : String → Bool) (dir : String)
    (dumps : List dumpFiles) (f : RecFile) : List dumpFiles :=
  let ext := fileExt f.name
  if ¬ (knownFormat ext = true ∨ ext = ".gz") then dumps
  else if f.infoOk = false then dumps
  else
    let base := trimSuffix (filepathBase f.name) ext
    let dumpName := if ext = ".gz" then trimSuffix base (fileExt base) else base
    addFileToDumps dumps dumpName (filepathJoin dir f.name) f.modTime

/-- The grouping pass of the startup reconciliation over the whole directory
listing. -/
def snapshotLocalDumps (knownFormat : String → Bool) (dir : String)
    (files : List RecFile) : List dumpFiles :=
  files.foldl (snapshotStep knownFormat dir) []

/-- Insertion step of the sort modelling `sort.Sort(dumps)` with
`dumpFilesSlice.Less i j = s[i].MTime.Before(s[j].MTime)` (lines 58-61 and
150-152).  Go map iteration order is unspecified and `sort.Sort` is unstable;
the model resolves both deterministically: grouping order is first-insertion
order and the sort is stable. -/
def insertByMTime (a : dumpFiles) : List dumpFiles → List dumpFiles
  | [] => [a]
  | b :: rest =>
      if a.MTime ≤ b.MTime then a :: b :: rest else b :: insertByMTime a rest

/-- Stable ascending sort of the grouped dumps by `MTime`. -/
def sortByMTime : List dumpFiles → List dumpFiles
  | [] => []
  | a :: rest => insertByMTime a (sortByMTime rest)

/-- `NewActivityDumpLocalStorage` (local_storage.go lines 70-160).
`maxDumpsCount` is the configured capacity; `simplelru.NewLRU` fails on a
non-positive size (here: zero).  `files` is the successful directory listing
(listing errors other than not-found are fatal and modelled away; a missing
directory yields an empty listing).  When the configured directory is empty
the snapshot block is skipped.  The grouped sets are sorted ascending by
`MTime` and seeded into the LRU in that order, running the eviction callback
on any overflow. -/
def NewActivityDumpLocalStorage (maxDumpsCount : Nat)
    (knownFormat : String → Bool) (dir : String) (files : List RecFile)
    (hasObserver : Bool) (removeSucceeds : String → Bool) :
    Except String (ActivityDumpLocalStorage × List Event) :=
  if maxDumpsCount = 0 then
    Except.error "could not create the dump LRU"
  else
    let init : ActivityDumpLocalStorage :=
      { capacity := maxDumpsCount, localDumps := [], deletedCount := 0 }
    if dir.isEmpty then Except.ok (init, [])
    else
      let dumps := sortByMTime (snapshotLocalDumps knownFormat dir files)
      Except.ok (dumps.foldl (fun acc ad =>
        let r := addWithEviction hasObserver removeSucceeds acc.1 ad.Name ad.Files
        (r.1, acc.2 ++ r.2)) (init, []))

/-- Runs a sequence of `Persist` calls (each with its own outcome
environment, request, and dump name), collecting the concatenated event
trace.  A failed call leaves the state unchanged, as in the code. -/
def runTrace (storage : ActivityDumpLocalStorage) :
    List (PersistEnv × StorageRequest × String) →
      ActivityDumpLocalStorage × List Event
  | [] => (storage, [])
  | c :: rest =>
      let r := Persist storage c.1 c.2.1 c.2.2
      let next := runTrace r.2.1 rest
      (next.1, r.2.2 ++ next.2)

/-- States of the store reachable through its public lifecycle: successful
construction (including the startup seeding), then any interleaving of
`Persist` calls (successful or failed) and `SendTelemetry` calls. -/
inductive Reachable : Nat → ActivityDumpLocalStorage → Prop where
  | ctor : ∀ (cap : Nat) (knownFormat : String → Bool) (dir : String)
      (files : List RecFile) (hasObserver : Bool)
      (removeSucceeds : String → Bool)
      (storage : ActivityDumpLocalStorage) (events : List Event),
      NewActivityDumpLocalStorage cap knownFormat dir files hasObserver
        removeSucceeds = Except.ok (storage, events) →
      Reachable cap storage
  | persistStep : ∀ (cap : Nat) (storage : ActivityDumpLocalStorage)
      (env : PersistEnv) (request : StorageRequest) (name : String),
      Reachable cap storage →
      Reachable cap (Persist storage env request name).2.1
  | telemetryStep : ∀ (cap : Nat) (storage : ActivityDumpLocalStorage),
      Reachable cap storage →
      Reachable cap (SendTelemetry storage).1

/-- The inductive invariant of reachable states: the configured capacity is
positive and recorded in the state, the index size is bounded by it, every
registered artifact set is nonempty, and identities are unique. -/
def GoodState (cap : Nat) (storage : ActivityDumpLocalStorage) : Prop :=
  storage.capacity = cap ∧ 1 ≤ cap ∧
  storage.localDumps.length ≤ cap ∧
  (∀ e ∈ storage.localDumps, e.2 ≠ []) ∧
  (storage.localDumps.map Prod.fst).Nodup

theorem aux_getLast_mem {α : Type _} : ∀ {l : List α} {a : α},
    l.getLast? = some a → a ∈ l := by
  intro l
  induction l with
  | nil => intro a h; simp at h
  | cons x t ih =>
    intro a h
    cases t with
    | nil =>
      simp at h
      simp [h]
    | cons y t2 =>
      rw [List.getLast?_cons_cons] at h
      exact List.mem_cons_of_mem _ (ih h)

theorem aux_filter_length_lt (entries : List (String × List String))
    (key : String) (hk : entries.any (fun e => e.1 = key) = true) :
    (entries.filter (fun e => e.1 ≠ key)).length < entries.length := by
  rw [List.length_filter_lt_length_iff_exists]
  obtain ⟨e, he, hek⟩ := List.any_eq_true.mp hk
  refine ⟨e, he, ?_⟩
  simp only [ne_eq, decide_not, Bool.not_eq_true, Bool.not_eq_false]
  simp [hek]

theorem lruAdd_length_le (cap : Nat) (entries : List (String × List String))
    (key : String) (value : List String)
    (hlen : entries.length ≤ cap) :
    (lruAdd cap entries key value).1.length ≤ cap := by
  unfold lruAdd
  by_cases hk : entries.any (fun e => e.1 = key) = true
  · rw [if_pos hk]
    have := aux_filter_length_lt entries key hk
    simp only [List.length_cons]
    omega
  · rw [if_neg hk]
    by_cases hov : cap < ((key, value) :: entries).length
    · rw [if_pos hov]
      show (((key, value) :: entries).dropLast).length ≤ cap
      rw [List.length_dropLast, List.length_cons]
      omega
    · rw [if_neg hov]
      exact Nat.le_of_not_lt hov

theorem lruAdd_mem (cap : Nat) (entries : List (String × List String))
    (key : String) (value : List String) :
    ∀ e ∈ (lruAdd cap entries key value).1, e = (key, value) ∨ e ∈ entries := by
  intro e he
  unfold lruAdd at he
  by_cases hk : entries.any (fun x => x.1 = key) = true
  · rw [if_pos hk] at he
    rcases List.mem_cons.mp he with h | h
    · exact Or.inl h
    · exact Or.inr (List.mem_filter.mp h).1
  · rw [if_neg hk] at he
    by_cases hov : cap < ((key, value) :: entries).length
    · rw [if_pos hov] at he
      have := (List.dropLast_sublist ((key, value) :: entries)).subset he
      rcases List.mem_cons.mp this with h | h
      · exact Or.inl h
      · exact Or.inr h
    · rw [if_neg hov] at he
      rcases List.mem_cons.mp he with h | h
      · exact Or.inl h
      · exact Or.inr h

theorem lruAdd_keys_nodup (cap : Nat) (entries : List (String × List String))
    (key : String) (value : List String)
    (hnd : (entries.map Prod.fst).Nodup) :
    ((lruAdd cap entries key value).1.map Prod.fst).Nodup := by
  unfold lruAdd
  by_cases hk : entries.any (fun x => x.1 = key) = true
  · rw [if_pos hk]
    simp only [List.map_cons]
    rw [List.nodup_cons]
    constructor
    · intro hmem
      obtain ⟨e, he, hek⟩ := List.mem_map.mp hmem
      have h2 := (List.mem_filter.mp he).2
      simp only [ne_eq, decide_not, Bool.not_eq_true', decide_eq_false_iff_not] at h2
      exact h2 hek
    · exact ((List.filter_sublist entries).map Prod.fst).nodup hnd
  · rw [if_neg hk]
    have hfresh : key ∉ entries.map Prod.fst := by
      intro hmem
      obtain ⟨e, he, hek⟩ := List.mem_map.mp hmem
      exact hk (List.any_eq_true.mpr ⟨e, he, by simp [hek]⟩)
    have hpush : (((key, value) :: entries).map Prod.fst).Nodup := by
      simp only [List.map_cons]
      exact List.nodup_cons.mpr ⟨hfresh, hnd⟩
    by_cases hov : cap < ((key, value) :: entries).length
    · rw [if_pos hov]
      exact ((List.dropLast_sublist _).map Prod.fst).nodup hpush
    · rw [if_neg hov]
      exact hpush

theorem lruAdd_evicted (cap : Nat) (entries : List (String × List String))
    (key : String) (value : List String) (ev : String × List String)
    (hcap : 1 ≤ cap) (hlen : entries.length ≤ cap)
    (hev : (lruAdd cap entries key value).2 = some ev) :
    ev ∈ entries := by
  unfold lruAdd at hev
  by_cases hk : entries.any (fun x => x.1 = key) = true
  · rw [if_pos hk] at hev
    simp at hev
  · rw [if_neg hk] at hev
    by_cases hov : cap < ((key, value) :: entries).length
    · rw [if_pos hov] at hev
      simp only at hev
      cases entries with
      | nil => simp at hov; omega
      | cons e t =>
        rw [List.getLast?_cons_cons] at hev
        exact aux_getLast_mem hev
    · rw [if_neg hov] at hev
      simp at hev

theorem lruAdd_values_nonempty (cap : Nat)
    (entries : List (String × List String)) (key : String)
    (value : List String) (hval : value ≠ [])
    (hvs : ∀ e ∈ entries, e.2 ≠ []) :
    ∀ e ∈ (lruAdd cap entries key value).1, e.2 ≠ [] := by
  intro e he
  rcases lruAdd_mem cap entries key value e he with h | h
  · rw [h]; exact hval
  · exact hvs e h

theorem addWithEviction_shape (hasObserver : Bool)
    (removeSucceeds : String → Bool) (storage : ActivityDumpLocalStorage)
    (key : String) (value : List String) :
    (addWithEviction hasObserver removeSucceeds storage key value).1.localDumps =
      (lruAdd storage.capacity storage.localDumps key value).1 ∧
    (addWithEviction hasObserver removeSucceeds storage key value).1.capacity =
      storage.capacity := by
  unfold addWithEviction
  cases h : (lruAdd storage.capacity storage.localDumps key value).2 <;>
    simp [h]

theorem addWithEviction_good (hasObserver : Bool)
    (removeSucceeds : String → Bool) (cap : Nat)
    (storage : ActivityDumpLocalStorage) (key : String) (value : List String)
    (hg : GoodState cap storage) (hval : value ≠ []) :
    GoodState cap
      (addWithEviction hasObserver removeSucceeds storage key value).1 := by
  obtain ⟨hcap, hpos, hlen, hvs, hnd⟩ := hg
  obtain ⟨hdumps, hcap2⟩ :=
    addWithEviction_shape hasObserver removeSucceeds storage key value
  refine ⟨hcap2.trans hcap, hpos, ?_, ?_, ?_⟩
  · rw [hdumps, ← hcap]
    exact lruAdd_length_le _ _ _ _ (hcap ▸ hlen)
  · rw [hdumps]
    exact lruAdd_values_nonempty _ _ _ _ hval hvs
  · rw [hdumps]
    exact lruAdd_keys_nodup _ _ _ _ hnd

theorem Persist_good (cap : Nat) (storage : ActivityDumpLocalStorage)
    (env : PersistEnv) (request : StorageRequest) (name : String)
    (hg : GoodState cap storage) :
    GoodState cap (Persist storage env request name).2.1 := by
  unfold Persist
  by_cases h1 : request.compression = true ∧ env.compressOk = false
  · rw [if_pos h1]; exact hg
  rw [if_neg h1]
  by_cases h2 : env.createOk = false
  · rw [if_pos h2]; exact hg
  rw [if_neg h2]
  by_cases h3 : env.chmodOk = false
  · rw [if_pos h3]; exact hg
  rw [if_neg h3]
  by_cases h4 : env.writeOk = false
  · rw [if_pos h4]; exact hg
  rw [if_neg h4]
  by_cases h5 : env.closeOk = false
  · rw [if_pos h5]; exact hg
  rw [if_neg h5]
  by_cases h6 : env.renameOk = false
  · rw [if_pos h6]; exact hg
  rw [if_neg h6]
  obtain ⟨hcap, hpos, hlen, hvs, hnd⟩ := hg
  unfold lruGet
  cases hf : storage.localDumps.find? (fun e => e.1 = name) with
  | none =>
      simp only
      exact addWithEviction_good _ _ cap storage name _
        ⟨hcap, hpos, hlen, hvs, hnd⟩ (by simp)
  | some e =>
      simp only
      have he : e ∈ storage.localDumps := List.mem_of_find?_eq_some hf
      have hek : e.1 = name := by
        have := List.find?_some hf
        simpa using this
      have hany : storage.localDumps.any (fun x => x.1 = name) = true :=
        List.any_eq_true.mpr ⟨e, he, by simp [hek]⟩
      have hflt := aux_filter_length_lt storage.localDumps name hany
      refine ⟨hcap, hpos, ?_, ?_, ?_⟩
      · simp only [List.length_map, List.length_cons]
        omega
      · intro x hx
        obtain ⟨y, hy, hyx⟩ := List.mem_map.mp hx
        by_cases hyk : y.1 = name
        · rw [if_pos hyk] at hyx
          rw [← hyx]
          simp
        · rw [if_neg hyk] at hyx
          rw [← hyx]
          rcases List.mem_cons.mp hy with h | h
          · exact absurd (by rw [h]) hyk
          · exact hvs y (List.mem_filter.mp h).1
      · have hfst : ((((name, e.2) :: storage.localDumps.filter
            (fun x => x.1 ≠ name)).map (fun x =>
              if x.1 = name then (x.1, e.2 ++ [request.getOutputPath name])
              else x)).map Prod.fst) =
            (((name, e.2) :: storage.localDumps.filter
              (fun x => x.1 ≠ name)).map Prod.fst) := by
          rw [List.map_map]
          apply List.map_congr_left
          intro x _
          by_cases hx : x.1 = name
          · simp [hx]
          · simp [hx]
        rw [hfst]
        simp only [List.map_cons]
        refine List.nodup_cons.mpr ⟨?_, ?_⟩
        · intro hmem
          obtain ⟨y, hy, hyk⟩ := List.mem_map.mp hmem
          have h2 := (List.mem_filter.mp hy).2
          simp only [ne_eq, decide_not, Bool.not_eq_true',
            decide_eq_false_iff_not] at h2
          exact h2 hyk
        · exact ((List.filter_sublist storage.localDumps).map Prod.fst).nodup hnd

theorem addFileToDumps_files_nonempty (dumps : List dumpFiles)
    (dumpName filePath : String) (modTime : Nat)
    (h : ∀ ad ∈ dumps, ad.Files ≠ []) :
    ∀ ad ∈ addFileToDumps dumps dumpName filePath modTime, ad.Files ≠ [] := by
  intro ad had
  unfold addFileToDumps at had
  by_cases hk : dumps.any (fun x => x.Name = dumpName) = true
  · rw [if_pos hk] at had
    obtain ⟨y, hy, hyx⟩ := List.mem_map.mp had
    by_cases hyk : y.Name = dumpName
    · rw [if_pos hyk] at hyx
      rw [← hyx]
      simp
    · rw [if_neg hyk] at hyx
      rw [← hyx]
      exact h y hy
  · rw [if_neg hk] at had
    rcases List.mem_append.mp had with hm | hm
    · exact h ad hm
    · rw [List.mem_singleton.mp hm]
      simp

theorem snapshotStep_files_nonempty (knownFormat : String → Bool)
    (dir : String) (dumps : List dumpFiles) (f : RecFile)
    (h : ∀ ad ∈ dumps, ad.Files ≠ []) :
    ∀ ad ∈ snapshotStep knownFormat dir dumps f, ad.Files ≠ [] := by
  unfold snapshotStep
  by_cases h1 : ¬ (knownFormat (fileExt f.name) = true ∨ fileExt f.name = ".gz")
  · rw [if_pos h1]; exact h
  rw [if_neg h1]
  by_cases h2 : f.infoOk = false
  · rw [if_pos h2]; exact h
  rw [if_neg h2]
  exact addFileToDumps_files_nonempty _ _ _ _ h

theorem snapshotLocalDumps_files_nonempty (knownFormat : String → Bool)
    (dir : String) :
    ∀ (files : List RecFile) (acc : List dumpFiles),
      (∀ ad ∈ acc, ad.Files ≠ []) →
      ∀ ad ∈ files.foldl (snapshotStep knownFormat dir) acc, ad.Files ≠ [] := by
  intro files
  induction files with
  | nil => intro acc hacc; simpa using hacc
  | cons f rest ih =>
      intro acc hacc
      simp only [List.foldl_cons]
      exact ih _ (snapshotStep_files_nonempty knownFormat dir acc f hacc)

theorem insertByMTime_perm (a : dumpFiles) (l : List dumpFiles) :
    (insertByMTime a l).Perm (a :: l) := by
  induction l with
  | nil => exact List.Perm.refl _
  | cons b t ih =>
      unfold insertByMTime
      by_cases h : a.MTime ≤ b.MTime
      · rw [if_pos h]
      · rw [if_neg h]
        exact (ih.cons b).trans (List.Perm.swap a b t)

theorem sortByMTime_perm (l : List dumpFiles) : (sortByMTime l).Perm l := by
  induction l with
  | nil => exact List.Perm.refl _
  | cons a t ih =>
      unfold sortByMTime
      exact (insertByMTime_perm a (sortByMTime t)).trans (ih.cons a)

theorem seedFold_good (hasObserver : Bool) (removeSucceeds : String → Bool)
    (cap : Nat) :
    ∀ (dumps : List dumpFiles) (acc : ActivityDumpLocalStorage × List Event),
      GoodState cap acc.1 → (∀ ad ∈ dumps, ad.Files ≠ []) →
      GoodState cap (dumps.foldl (fun acc ad =>
        ((addWithEviction hasObserver removeSucceeds acc.1 ad.Name ad.Files).1,
          acc.2 ++
            (addWithEviction hasObserver removeSucceeds acc.1 ad.Name
              ad.Files).2)) acc).1 := by
  intro dumps
  induction dumps with
  | nil => intro acc hacc _; simpa using hacc
  | cons ad rest ih =>
      intro acc hacc hne
      simp only [List.foldl_cons]
      refine ih _ ?_ (fun x hx => hne x (List.mem_cons_of_mem _ hx))
      exact addWithEviction_good hasObserver removeSucceeds cap acc.1 ad.Name
        ad.Files hacc (hne ad (List.mem_cons_self _ _))

theorem NewStorage_good (cap : Nat) (knownFormat : String → Bool)
    (dir : String) (files : List RecFile) (hasObserver : Bool)
    (removeSucceeds : String → Bool) (storage : ActivityDumpLocalStorage)
    (events : List Event)
    (h : NewActivityDumpLocalStorage cap knownFormat dir files hasObserver
      removeSucceeds = Except.ok (storage, events)) :
    GoodState cap storage := by
  unfold NewActivityDumpLocalStorage at h
  by_cases hcap : cap = 0
  · rw [if_pos hcap] at h
    exact absurd h (by simp)
  rw [if_neg hcap] at h
  have hpos : 1 ≤ cap := Nat.one_le_iff_ne_zero.mpr hcap
  by_cases hdir : dir.isEmpty = true
  · rw [if_pos hdir] at h
    obtain ⟨h1, _⟩ := Prod.mk.injEq .. ▸ (Except.ok.injEq .. ▸ h)
    rw [← h1]
    exact ⟨rfl, hpos, by simp, by simp, by simp⟩
  · rw [if_neg hdir] at h
    simp only [Except.ok.injEq] at h
    have hgood0 : GoodState cap
        ({ capacity := cap, localDumps := [], deletedCount := 0 } :
          ActivityDumpLocalStorage) :=
      ⟨rfl, hpos, by simp, by simp, by simp⟩
    have hne : ∀ ad ∈ sortByMTime (snapshotLocalDumps knownFormat dir files),
        ad.Files ≠ [] := by
      intro ad had
      exact snapshotLocalDumps_files_nonempty knownFormat dir files []
        (by simp) ad ((sortByMTime_perm _).mem_iff.mp had)
    have hg := seedFold_good hasObserver removeSucceeds cap
      (sortByMTime (snapshotLocalDumps knownFormat dir files))
      ({ capacity := cap, localDumps := [], deletedCount := 0 }, [])
      hgood0 hne
    have h2 := congrArg Prod.fst h
    rw [h2] at hg
    exact hg

theorem reachable_good {cap : Nat} {storage : ActivityDumpLocalStorage}
    (h : Reachable cap storage) : GoodState cap storage := by
  induction h with
  | ctor knownFormat dir files hasObserver removeSucceeds st evs heq =>
      exact NewStorage_good _ knownFormat dir files hasObserver
        removeSucceeds st evs heq
  | persistStep st env request name _ ih =>
      exact Persist_good _ st env request name ih
  | telemetryStep st _ ih =>
      exact ⟨ih.1, ih.2.1, ih.2.2.1, ih.2.2.2.1, ih.2.2.2.2⟩

theorem Persist_fresh_add (storage : ActivityDumpLocalStorage)
    (env : PersistEnv) (request : StorageRequest) (name : String)
    (hc : ¬(request.compression = true ∧ env.compressOk = false))
    (h2 : env.createOk = true) (h3 : env.chmodOk = true)
    (h4 : env.writeOk = true) (h5 : env.closeOk = true)
    (h6 : env.renameOk = true)
    (hfind : storage.localDumps.find? (fun e => e.1 = name) = none) :
    Persist storage env request name =
      (Except.ok (),
        (addWithEviction env.hasObserver env.removeSucceeds storage name
          [request.getOutputPath name]).1,
        (addWithEviction env.hasObserver env.removeSucceeds storage name
          [request.getOutputPath name]).2) := by
  unfold Persist lruGet
  rw [if_neg hc, if_neg (by simp [h2]), if_neg (by simp [h3]),
    if_neg (by simp [h4]), if_neg (by simp [h5]), if_neg (by simp [h6]), hfind]

theorem Persist_found_append (storage : ActivityDumpLocalStorage)
    (env : PersistEnv) (request : StorageRequest) (name : String)
    (v : List String)
    (hc : ¬(request.compression = true ∧ env.compressOk = false))
    (h2 : env.createOk = true) (h3 : env.chmodOk = true)
    (h4 : env.writeOk = true) (h5 : env.closeOk = true)
    (h6 : env.renameOk = true)
    (hfind : storage.localDumps.find? (fun e => e.1 = name) = some (name, v)) :
    Persist storage env request name =
      (Except.ok (), { storage with
        localDumps := (((name, v) ::
          storage.localDumps.filter (fun x => x.1 ≠ name)).map (fun e =>
            if e.1 = name then (e.1, v ++ [request.getOutputPath name])
            else e)) }, []) := by
  unfold Persist lruGet
  rw [if_neg hc, if_neg (by simp [h2]), if_neg (by simp [h3]),
    if_neg (by simp [h4]), if_neg (by simp [h5]), if_neg (by simp [h6]), hfind]

theorem addWithEviction_no_evict (hasObserver : Bool)
    (removeSucceeds : String → Bool) (storage : ActivityDumpLocalStorage)
    (key : String) (value : List String)
    (hk : storage.localDumps.any (fun e => e.1 = key) = false)
    (hlen : storage.localDumps.length + 1 ≤ storage.capacity) :
    addWithEviction hasObserver removeSucceeds storage key value =
      ({ storage with localDumps := (key, value) :: storage.localDumps }, []) := by
  unfold addWithEviction lruAdd
  rw [if_neg (by simp [hk]),
    if_neg (by simp only [List.length_cons]; omega)]

theorem addWithEviction_evict (hasObserver : Bool)
    (removeSucceeds : String → Bool) (storage : ActivityDumpLocalStorage)
    (key : String) (value : List String) (old : String × List String)
    (hk : storage.localDumps.any (fun e => e.1 = key) = false)
    (hov : storage.capacity < storage.localDumps.length + 1)
    (hold : ((key, value) :: storage.localDumps).getLast? = some old) :
    addWithEviction hasObserver removeSucceeds storage key value =
      ({ storage with
          localDumps := ((key, value) :: storage.localDumps).dropLast,
          deletedCount := storage.deletedCount +
            (onEvict hasObserver removeSucceeds old.2).2 },
        (onEvict hasObserver removeSucceeds old.2).1) := by
  unfold addWithEviction lruAdd
  rw [if_neg (by simp [hk]),
    if_pos (by simp only [List.length_cons]; omega), hold]

theorem runTrace_append (storage : ActivityDumpLocalStorage)
    (l1 l2 : List (PersistEnv × StorageRequest × String)) :
    runTrace storage (l1 ++ l2) =
      ((runTrace (runTrace storage l1).1 l2).1,
        (runTrace storage l1).2 ++ (runTrace (runTrace storage l1).1 l2).2) := by
  induction l1 generalizing storage with
  | nil => simp [runTrace]
  | cons c t ih =>
      simp only [List.cons_append, runTrace, List.append_eq]
      rw [ih]
      simp [List.append_assoc]

theorem runTrace_fresh (env : PersistEnv) (request : StorageRequest)
    (hok : env.compressOk = true ∧ env.createOk = true ∧ env.chmodOk = true ∧
      env.writeOk = true ∧ env.closeOk = true ∧ env.renameOk = true) :
    ∀ (names : List String) (storage : ActivityDumpLocalStorage),
      names.Nodup →
      (∀ n ∈ names, ∀ e ∈ storage.localDumps, e.1 ≠ n) →
      storage.localDumps.length + names.length ≤ storage.capacity →
      runTrace storage (names.map (fun n => (env, request, n))) =
        ({ storage with localDumps :=
            (names.map (fun n => (n, [request.getOutputPath n]))).reverse ++
              storage.localDumps }, []) := by
  intro names
  induction names with
  | nil =>
      intro storage _ _ _
      simp [runTrace]
  | cons n rest ih =>
      intro storage hnd hfresh hlen
      have hfind : storage.localDumps.find? (fun e => e.1 = n) = none := by
        rw [List.find?_eq_none]
        intro e he
        simp only [decide_eq_true_eq]
        exact hfresh n (List.mem_cons_self _ _) e he
      have hany : storage.localDumps.any (fun e => e.1 = n) = false := by
        rw [List.any_eq_false]
        intro e he
        simp only [decide_eq_true_eq]
        exact hfresh n (List.mem_cons_self _ _) e he
      have hnd2 := List.nodup_cons.mp hnd
      simp only [List.map_cons, runTrace]
      rw [Persist_fresh_add storage env request n (by simp [hok.1]) hok.2.1
        hok.2.2.1 hok.2.2.2.1 hok.2.2.2.2.1 hok.2.2.2.2.2 hfind]
      rw [addWithEviction_no_evict env.hasObserver env.removeSucceeds storage n
        [request.getOutputPath n] hany
        (by simp only [List.length_cons] at hlen; omega)]
      have hfresh2 : ∀ m ∈ rest,
          ∀ e ∈ ({ storage with localDumps :=
            (n, [request.getOutputPath n]) :: storage.localDumps } :
              ActivityDumpLocalStorage).localDumps, e.1 ≠ m := by
        intro m hm e he
        rcases List.mem_cons.mp he with h | h
        · rw [h]
          intro hcon
          have hcon2 : n = m := hcon
          exact hnd2.1 (by rw [hcon2]; exact hm)
        · exact hfresh m (List.mem_cons_of_mem _ hm) e h
      have hlen2 : ({ storage with localDumps :=
          (n, [request.getOutputPath n]) :: storage.localDumps } :
            ActivityDumpLocalStorage).localDumps.length + rest.length ≤
          ({ storage with localDumps :=
            (n, [request.getOutputPath n]) :: storage.localDumps } :
              ActivityDumpLocalStorage).capacity := by
        simp only [List.length_cons]
        simp only [List.length_cons] at hlen
        omega
      rw [ih _ hnd2.2 hfresh2 hlen2]
      simp [List.append_assoc]

theorem find?_key_unique (l : List (String × List String)) (name : String)
    (v : List String) (hnd : (l.map Prod.fst).Nodup) (hmem : (name, v) ∈ l) :
    l.find? (fun e => e.1 = name) = some (name, v) := by
  induction l with
  | nil => simp at hmem
  | cons e t ih =>
      simp only [List.map_cons, List.nodup_cons] at hnd
      by_cases he : e.1 = name
      · rw [List.find?_cons_of_pos _ (by simp [he])]
        rcases List.mem_cons.mp hmem with h | h
        · rw [h]
        · exfalso
          apply hnd.1
          rw [he]
          exact List.mem_map.mpr ⟨(name, v), h, rfl⟩
      · rw [List.find?_cons_of_neg _ (by simp [he])]
        rcases List.mem_cons.mp hmem with h | h
        · exact absurd (congrArg Prod.fst h.symm) he
        · exact ih hnd.2 h

theorem filter_length_of_unique (l : List (String × List String))
    (name : String) (hany : l.any (fun e => e.1 = name) = true)
    (hnd : (l.map Prod.fst).Nodup) :
    (l.filter (fun e => e.1 ≠ name)).length + 1 = l.length := by
  induction l with
  | nil => simp at hany
  | cons e t ih =>
      simp only [List.map_cons, List.nodup_cons] at hnd
      by_cases he : e.1 = name
      · have hrest : t.filter (fun x => x.1 ≠ name) = t := by
          rw [List.filter_eq_self]
          intro a ha
          simp only [ne_eq, decide_not, Bool.not_eq_true',
            decide_eq_false_iff_not]
          intro hak
          exact hnd.1 (List.mem_map.mpr ⟨a, ha, hak.trans he.symm⟩)
        rw [List.filter_cons_of_neg (by simp [he]), hrest]
        simp
      · have hany2 : t.any (fun x => x.1 = name) = true := by
          obtain ⟨x, hx, hxk⟩ := List.any_eq_true.mp hany
          rcases List.mem_cons.mp hx with h | h
          · rw [h] at hxk
            exact absurd (by simpa using hxk) he
          · exact List.any_eq_true.mpr ⟨x, h, hxk⟩
        rw [List.filter_cons_of_pos (by simp [he])]
        simp only [List.length_cons]
        have := ih hany2 hnd.2
        omega

/-- Claim C1: for every sequence of construction-time seeding and Persist
calls (and telemetry flushes), the number of entries in the retention index
localDumps is at most the configured capacity
ActivityDumpLocalStorageMaxDumpsCount after any call returns. -/
theorem retention_index_bounded (cap : Nat)
    (storage : ActivityDumpLocalStorage) (h : Reachable cap storage) :
    storage.localDumps.length ≤ cap :=
  (reachable_good h).2.2.1

/-- Witness for C1 at a concrete reachable state: the freshly constructed
store with capacity 1 and no pre-existing dumps. -/
theorem retention_index_bounded_witness :
    ({ capacity := 1, localDumps := [], deletedCount := 0 } :
      ActivityDumpLocalStorage).localDumps.length ≤ 1 :=
  retention_index_bounded 1
    { capacity := 1, localDumps := [], deletedCount := 0 }
    (Reachable.ctor 1 (fun _ => false) "" [] true (fun _ => true)
      { capacity := 1, localDumps := [], deletedCount := 0 } [] rfl)

/-- Claim C4: whenever compression, file create, chmod, write, close, or
rename fails, Persist returns an error and registers nothing: the store state
(including the retention index) is identical to its state before the call and
no side effects are emitted. -/
theorem persist_failure_not_registered (storage : ActivityDumpLocalStorage)
    (env : PersistEnv) (request : StorageRequest) (name : String)
    (hfail : (request.compression = true ∧ env.compressOk = false) ∨
      env.createOk = false ∨ env.chmodOk = false ∨ env.writeOk = false ∨
      env.closeOk = false ∨ env.renameOk = false) :
    (∃ msg, (Persist storage env request name).1 = Except.error msg) ∧
    (Persist storage env request name).2.1 = storage ∧
    (Persist storage env request name).2.2 = [] := by
  unfold Persist
  by_cases h1 : request.compression = true ∧ env.compressOk = false
  · rw [if_pos h1]
    exact ⟨⟨_, rfl⟩, rfl, rfl⟩
  rw [if_neg h1]
  by_cases h2 : env.createOk = false
  · rw [if_pos h2]
    exact ⟨⟨_, rfl⟩, rfl, rfl⟩
  rw [if_neg h2]
  by_cases h3 : env.chmodOk = false
  · rw [if_pos h3]
    exact ⟨⟨_, rfl⟩, rfl, rfl⟩
  rw [if_neg h3]
  by_cases h4 : env.writeOk = false
  · rw [if_pos h4]
    exact ⟨⟨_, rfl⟩, rfl, rfl⟩
  rw [if_neg h4]
  by_cases h5 : env.closeOk = false
  · rw [if_pos h5]
    exact ⟨⟨_, rfl⟩, rfl, rfl⟩
  rw [if_neg h5]
  by_cases h6 : env.renameOk = false
  · rw [if_pos h6]
    exact ⟨⟨_, rfl⟩, rfl, rfl⟩
  rcases hfail with h | h | h | h | h | h
  · exact absurd h h1
  · exact absurd h h2
  · exact absurd h h3
  · exact absurd h h4
  · exact absurd h h5
  · exact absurd h h6

/-- Witness for C4: a failing file create on a concrete store. -/
theorem persist_failure_not_registered_witness :
    (∃ msg, (Persist { capacity := 1, localDumps := [], deletedCount := 0 }
      { compressOk := true, createOk := false, chmodOk := true,
        writeOk := true, closeOk := true, renameOk := true,
        hasObserver := true, removeSucceeds := fun _ => true }
      { compression := false, outputDirectory := "d",
        getOutputPath := fun n => n } "x").1 = Except.error msg) ∧
    (Persist { capacity := 1, localDumps := [], deletedCount := 0 }
      { compressOk := true, createOk := false, chmodOk := true,
        writeOk := true, closeOk := true, renameOk := true,
        hasObserver := true, removeSucceeds := fun _ => true }
      { compression := false, outputDirectory := "d",
        getOutputPath := fun n => n } "x").2.1 =
      { capacity := 1, localDumps := [], deletedCount := 0 } ∧
    (Persist { capacity := 1, localDumps := [], deletedCount := 0 }
      { compressOk := true, createOk := false, chmodOk := true,
        writeOk := true, closeOk := true, renameOk := true,
        hasObserver := true, removeSucceeds := fun _ => true }
      { compression := false, outputDirectory := "d",
        getOutputPath := fun n => n } "x").2.2 = [] :=
  persist_failure_not_registered _ _ _ _ (Or.inr (Or.inl rfl))

/-- Claim C5 (code bug): with files a.json (mtime 3) and a.json.gz (mtime 7)
the reconciliation groups both under identity a, but the computed MTime is the
zero time, not the maximum modification time 7: the guard at
local_storage.go line 146 requires MTime to be nonzero before ever setting
it, and MTime starts at the zero value, so it is never updated. -/
theorem reconciliation_mtime_stays_zero :
    snapshotLocalDumps (fun ext => ext = ".json") "d"
        [{ name := "a.json", infoOk := true, modTime := 3 },
         { name := "a.json.gz", infoOk := true, modTime := 7 }] =
      [{ Name := "a", Files := ["d/a.json", "d/a.json.gz"], MTime := 0 }] := by
  rfl

/-- Claim C6 (code bug): with capacity 2 and pre-existing dumps b.json
(mtime 5), a.json (mtime 1), c.json (mtime 9), the reconciliation does not
evict the dump with the earliest modification time (a.json): every computed
MTime is the zero time (the line 146 guard never fires), so the sort by MTime
leaves the grouping order untouched and the eviction hits b.json instead. -/
theorem reconciliation_evicts_non_oldest :
    NewActivityDumpLocalStorage 2 (fun ext => ext = ".json") "d"
        [{ name := "b.json", infoOk := true, modTime := 5 },
         { name := "a.json", infoOk := true, modTime := 1 },
         { name := "c.json", infoOk := true, modTime := 9 }]
        true (fun _ => true) =
      Except.ok
        ({ capacity := 2,
           localDumps := [("c", ["d/c.json"]), ("a", ["d/a.json"])],
           deletedCount := 1 },
         [Event.notify ["d/b.json"], Event.removeOk "d/b.json",
          Event.incrDeleted]) := by
  rfl

/-- Claim C7: SendTelemetry emits the index-size gauge only when the index is
non-empty and the deleted counter only when it is non-zero, resetting it; a
second consecutive call therefore emits no counter. -/
theorem send_telemetry_gated_and_flushed (storage : ActivityDumpLocalStorage) :
    ((SendTelemetry storage).1.deletedCount = 0 ∧
      (SendTelemetry storage).1.localDumps = storage.localDumps) ∧
    (0 < storage.localDumps.length →
      Telemetry.gauge MetricActivityDumpLocalStorageCount
        storage.localDumps.length ∈ (SendTelemetry storage).2) ∧
    (storage.localDumps.length = 0 →
      ∀ nm val, Telemetry.gauge nm val ∉ (SendTelemetry storage).2) ∧
    (0 < storage.deletedCount →
      Telemetry.count MetricActivityDumpLocalStorageDeleted
        storage.deletedCount ∈ (SendTelemetry storage).2) ∧
    (storage.deletedCount = 0 →
      ∀ nm val, Telemetry.count nm val ∉ (SendTelemetry storage).2) ∧
    (∀ nm val,
      Telemetry.count nm val ∉ (SendTelemetry (SendTelemetry storage).1).2) := by
  unfold SendTelemetry
  refine ⟨⟨rfl, rfl⟩, ?_, ?_, ?_, ?_, ?_⟩
  · intro h
    simp [h]
  · intro h nm val
    simp only [h]
    split_ifs <;> simp_all
  · intro h
    simp [h]
  · intro h
    simp only [h]
    split_ifs <;> simp_all
  · intro nm val
    split_ifs <;> simp_all

/-- Claim C9: when removing a file of the evicted set fails, the failure is
only logged: every file of the set still gets its removal attempt recorded,
and deletedCount is still incremented by exactly one for the eviction. -/
theorem eviction_remove_failure_tolerated (hasObserver : Bool)
    (removeSucceeds : String → Bool) (filePaths : List String)
    (hne : filePaths ≠ [])
    (hfail : ∃ p ∈ filePaths, removeSucceeds p = false) :
    (onEvict hasObserver removeSucceeds filePaths).2 = 1 ∧
    (∀ p ∈ filePaths,
      (if removeSucceeds p then Event.removeOk p else Event.removeFail p) ∈
        (onEvict hasObserver removeSucceeds filePaths).1) ∧
    Event.incrDeleted ∈ (onEvict hasObserver removeSucceeds filePaths).1 := by
  unfold onEvict
  rw [if_neg (by simpa using hne)]
  refine ⟨rfl, ?_, ?_⟩
  · intro p hp
    simp only [List.mem_append, List.mem_map, List.mem_singleton]
    exact Or.inl (Or.inr ⟨p, hp, rfl⟩)
  · simp

/-- Witness for C9: the set has files p and q and removing p fails. -/
theorem eviction_remove_failure_tolerated_witness :
    (onEvict true (fun s => s = "q") ["p", "q"]).2 = 1 ∧
    (∀ p ∈ (["p", "q"] : List String),
      (if ((fun s => s = "q") : String → Bool) p = true then Event.removeOk p
        else Event.removeFail p) ∈
        (onEvict true (fun s => s = "q") ["p", "q"]).1) ∧
    Event.incrDeleted ∈ (onEvict true (fun s => s = "q") ["p", "q"]).1 :=
  eviction_remove_failure_tolerated true (fun s => s = "q") ["p", "q"]
    (by simp) ⟨"p", by simp, by decide⟩

/-- Claim C10 (implicit): an eviction whose file-path list is empty returns
immediately: no observer notification, no removal attempts, no deletedCount
increment — invisible to telemetry. -/
theorem empty_eviction_invisible (hasObserver : Bool)
    (removeSucceeds : String → Bool) :
    onEvict hasObserver removeSucceeds [] = ([], 0) := rfl

theorem onEvict_nonempty (removeSucceeds : String → Bool)
    (filePaths : List String) (hne : filePaths ≠ []) :
    onEvict true removeSucceeds filePaths =
      (Event.notify filePaths ::
        (filePaths.map (fun p =>
          if removeSucceeds p then Event.removeOk p else Event.removeFail p) ++
          [Event.incrDeleted]), 1) := by
  unfold onEvict
  rw [if_neg (by simpa using hne)]
  simp

theorem addWithEviction_cases (hasObserver : Bool)
    (removeSucceeds : String → Bool) (storage : ActivityDumpLocalStorage)
    (key : String) (value : List String) :
    (∃ old, (lruAdd storage.capacity storage.localDumps key value).2 =
        some old ∧
      addWithEviction hasObserver removeSucceeds storage key value =
        ({ storage with
            localDumps := (lruAdd storage.capacity storage.localDumps key
              value).1,
            deletedCount := storage.deletedCount +
              (onEvict hasObserver removeSucceeds old.2).2 },
          (onEvict hasObserver removeSucceeds old.2).1)) ∨
    ((lruAdd storage.capacity storage.localDumps key value).2 = none ∧
      addWithEviction hasObserver removeSucceeds storage key value =
        ({ storage with
            localDumps := (lruAdd storage.capacity storage.localDumps key
              value).1 },
          [])) := by
  cases h : (lruAdd storage.capacity storage.localDumps key value).2 with
  | none =>
      right
      refine ⟨rfl, ?_⟩
      simp only [addWithEviction, h]
  | some old =>
      left
      refine ⟨old, rfl, ?_⟩
      simp only [addWithEviction, h]

/-- Claim C8: a successful Persist whose dump identity is already in the
retention index appends the final path to the existing entry in place (no new
entry): the index size is unchanged, no eviction event is emitted, and the
deleted counter is untouched. -/
theorem persist_existing_appends (storage : ActivityDumpLocalStorage)
    (env : PersistEnv) (request : StorageRequest) (name : String)
    (v : List String)
    (hnd : (storage.localDumps.map Prod.fst).Nodup)
    (hmem : (name, v) ∈ storage.localDumps)
    (hok : env.compressOk = true ∧ env.createOk = true ∧ env.chmodOk = true ∧
      env.writeOk = true ∧ env.closeOk = true ∧ env.renameOk = true) :
    (Persist storage env request name).1 = Except.ok () ∧
    (name, v ++ [request.getOutputPath name]) ∈
      (Persist storage env request name).2.1.localDumps ∧
    (Persist storage env request name).2.1.localDumps.length =
      storage.localDumps.length ∧
    (Persist storage env request name).2.2 = [] ∧
    (Persist storage env request name).2.1.deletedCount =
      storage.deletedCount := by
  have hfind := find?_key_unique storage.localDumps name v hnd hmem
  rw [Persist_found_append storage env request name v (by simp [hok.1])
    hok.2.1 hok.2.2.1 hok.2.2.2.1 hok.2.2.2.2.1 hok.2.2.2.2.2 hfind]
  refine ⟨rfl, ?_, ?_, rfl, rfl⟩
  · simp
  · have hany : storage.localDumps.any (fun e => e.1 = name) = true :=
      List.any_eq_true.mpr ⟨(name, v), hmem, by simp⟩
    have hflt := filter_length_of_unique storage.localDumps name hany hnd
    simp only [List.length_map, List.length_cons]
    omega

/-- Witness for C8: identity a is already present with one file. -/
theorem persist_existing_appends_witness :
    (Persist
      { capacity := 2, localDumps := [("a", ["f1"])], deletedCount := 5 }
      { compressOk := true, createOk := true, chmodOk := true,
        writeOk := true, closeOk := true, renameOk := true,
        hasObserver := true, removeSucceeds := fun _ => true }
      { compression := false, outputDirectory := "d",
        getOutputPath := fun n => n } "a").1 = Except.ok () ∧
    ("a", ["f1"] ++ ["a"]) ∈
      (Persist
        { capacity := 2, localDumps := [("a", ["f1"])], deletedCount := 5 }
        { compressOk := true, createOk := true, chmodOk := true,
          writeOk := true, closeOk := true, renameOk := true,
          hasObserver := true, removeSucceeds := fun _ => true }
        { compression := false, outputDirectory := "d",
          getOutputPath := fun n => n } "a").2.1.localDumps ∧
    (Persist
      { capacity := 2, localDumps := [("a", ["f1"])], deletedCount := 5 }
      { compressOk := true, createOk := true, chmodOk := true,
        writeOk := true, closeOk := true, renameOk := true,
        hasObserver := true, removeSucceeds := fun _ => true }
      { compression := false, outputDirectory := "d",
        getOutputPath := fun n => n } "a").2.1.localDumps.length =
      ([("a", ["f1"])] : List (String × List String)).length ∧
    (Persist
      { capacity := 2, localDumps := [("a", ["f1"])], deletedCount := 5 }
      { compressOk := true, createOk := true, chmodOk := true,
        writeOk := true, closeOk := true, renameOk := true,
        hasObserver := true, removeSucceeds := fun _ => true }
      { compression := false, outputDirectory := "d",
        getOutputPath := fun n => n } "a").2.2 = [] ∧
    (Persist
      { capacity := 2, localDumps := [("a", ["f1"])], deletedCount := 5 }
      { compressOk := true, createOk := true, chmodOk := true,
        writeOk := true, closeOk := true, renameOk := true,
        hasObserver := true, removeSucceeds := fun _ => true }
      { compression := false, outputDirectory := "d",
        getOutputPath := fun n => n } "a").2.1.deletedCount = 5 :=
  persist_existing_appends _ _ _ "a" ["f1"] (by simp) (by simp)
    ⟨rfl, rfl, rfl, rfl, rfl, rfl⟩

/-- Claim C2: every eviction triggered by a Persist insertion into the
retention index of a reachable store runs the callback which, in order,
notifies the cleanup observer with the full file-path list of the evicted set
(no observer error can propagate: the call has no error channel), attempts
removal of every file of the list, and increments deletedCount by exactly
one, regardless of how many files the set contained. -/
theorem eviction_callback_contract (cap : Nat)
    (storage : ActivityDumpLocalStorage) (env : PersistEnv)
    (request : StorageRequest) (name : String)
    (h : Reachable cap storage) (hobs : env.hasObserver = true)
    (hev : (Persist storage env request name).2.2 ≠ []) :
    ∃ paths : List String, paths ≠ [] ∧
      (Persist storage env request name).2.2 =
        Event.notify paths ::
          (paths.map (fun p => if env.removeSucceeds p then Event.removeOk p
            else Event.removeFail p) ++ [Event.incrDeleted]) ∧
      (Persist storage env request name).2.1.deletedCount =
        storage.deletedCount + 1 := by
  obtain ⟨hcap, hpos, hlen, hvs, hnd⟩ := reachable_good h
  by_cases h1 : request.compression = true ∧ env.compressOk = false
  · exact absurd (by unfold Persist; rw [if_pos h1]) hev
  by_cases h2 : env.createOk = false
  · exact absurd (by unfold Persist; rw [if_neg h1, if_pos h2]) hev
  by_cases h3 : env.chmodOk = false
  · exact absurd (by unfold Persist; rw [if_neg h1, if_neg h2, if_pos h3]) hev
  by_cases h4 : env.writeOk = false
  · exact absurd
      (by unfold Persist; rw [if_neg h1, if_neg h2, if_neg h3, if_pos h4]) hev
  by_cases h5 : env.closeOk = false
  · exact absurd
      (by unfold Persist
          rw [if_neg h1, if_neg h2, if_neg h3, if_neg h4, if_pos h5]) hev
  by_cases h6 : env.renameOk = false
  · exact absurd
      (by unfold Persist
          rw [if_neg h1, if_neg h2, if_neg h3, if_neg h4, if_neg h5,
            if_pos h6]) hev
  have h2t : env.createOk = true := by revert h2; cases env.createOk <;> simp
  have h3t : env.chmodOk = true := by revert h3; cases env.chmodOk <;> simp
  have h4t : env.writeOk = true := by revert h4; cases env.writeOk <;> simp
  have h5t : env.closeOk = true := by revert h5; cases env.closeOk <;> simp
  have h6t : env.renameOk = true := by revert h6; cases env.renameOk <;> simp
  cases hfind : storage.localDumps.find? (fun e => e.1 = name) with
  | some e =>
      have he1 : e.1 = name := by simpa using List.find?_some hfind
      have he2 : (name, e.2) = e := by
        rw [← he1]
      have hfind2 : storage.localDumps.find? (fun x => x.1 = name) =
          some (name, e.2) := by rw [hfind, he2]
      exact absurd
        (by rw [Persist_found_append storage env request name e.2 h1 h2t h3t
          h4t h5t h6t hfind2]) hev
  | none =>
      have hP := Persist_fresh_add storage env request name h1 h2t h3t h4t
        h5t h6t hfind
      rw [hobs] at hP
      rcases addWithEviction_cases env.hasObserver env.removeSucceeds storage
        name [request.getOutputPath name] with
        ⟨old, hsome, heqn⟩ | ⟨hnone, heqn⟩
      · have hmem : old ∈ storage.localDumps := by
          apply lruAdd_evicted storage.capacity storage.localDumps name
            [request.getOutputPath name] old ?_ ?_ hsome
          · rw [hcap]; exact hpos
          · rw [hcap]; exact hlen
        have hne : old.2 ≠ [] := hvs old hmem
        rw [hobs] at heqn
        rw [onEvict_nonempty env.removeSucceeds old.2 hne] at heqn
        rw [heqn] at hP
        refine ⟨old.2, hne, ?_, ?_⟩
        · rw [hP]
        · rw [hP]
      · rw [hobs] at heqn
        rw [heqn] at hP
        exact absurd (by rw [hP]) hev

/-- Witness for C2: a store of capacity 1 constructed over a directory
holding a.json; persisting the fresh identity b evicts a, and the callback
notifies, removes, and increments in order. -/
theorem eviction_callback_contract_witness :
    ∃ paths : List String, paths ≠ [] ∧
      (Persist
        { capacity := 1, localDumps := [("a", ["d/a.json"])],
          deletedCount := 0 }
        { compressOk := true, createOk := true, chmodOk := true,
          writeOk := true, closeOk := true, renameOk := true,
          hasObserver := true, removeSucceeds := fun _ => true }
        { compression := false, outputDirectory := "d",
          getOutputPath := fun n => n } "b").2.2 =
        Event.notify paths ::
          (paths.map (fun p => if ((fun _ => true) : String → Bool) p = true
            then Event.removeOk p else Event.removeFail p) ++
            [Event.incrDeleted]) ∧
      (Persist
        { capacity := 1, localDumps := [("a", ["d/a.json"])],
          deletedCount := 0 }
        { compressOk := true, createOk := true, chmodOk := true,
          writeOk := true, closeOk := true, renameOk := true,
          hasObserver := true, removeSucceeds := fun _ => true }
        { compression := false, outputDirectory := "d",
          getOutputPath := fun n => n } "b").2.1.deletedCount = 0 + 1 :=
  eviction_callback_contract 1
    { capacity := 1, localDumps := [("a", ["d/a.json"])], deletedCount := 0 }
    { compressOk := true, createOk := true, chmodOk := true,
      writeOk := true, closeOk := true, renameOk := true,
      hasObserver := true, removeSucceeds := fun _ => true }
    { compression := false, outputDirectory := "d",
      getOutputPath := fun n => n } "b"
    (Reachable.ctor 1 (fun ext => ext = ".json") "d"
      [{ name := "a.json", infoOk := true, modTime := 5 }] true
      (fun _ => true)
      { capacity := 1, localDumps := [("a", ["d/a.json"])],
        deletedCount := 0 } [] rfl)
    rfl (by decide)

/-- Claim C3: starting from a fresh store of capacity cap, cap plus one
successful Persist calls with distinct identities leave exactly cap entries,
the first-inserted identity is gone, its file has a removal event in the
trace of the final (inserting) call — the eviction callback having run
synchronously inside it — and deletedCount equals 1. -/
theorem overflow_evicts_first_inserted (cap : Nat) (n0 : String)
    (mid : List String) (nlast : String) (env : PersistEnv)
    (request : StorageRequest)
    (hcap : mid.length + 1 = cap)
    (hnd : (n0 :: (mid ++ [nlast])).Nodup)
    (hok : env.compressOk = true ∧ env.createOk = true ∧ env.chmodOk = true ∧
      env.writeOk = true ∧ env.closeOk = true ∧ env.renameOk = true)
    (hobs : env.hasObserver = true)
    (hrm : env.removeSucceeds (request.getOutputPath n0) = true) :
    (runTrace { capacity := cap, localDumps := [], deletedCount := 0 }
      ((n0 :: (mid ++ [nlast])).map
        (fun n => (env, request, n)))).1.localDumps.length = cap ∧
    (∀ e ∈ (runTrace { capacity := cap, localDumps := [], deletedCount := 0 }
      ((n0 :: (mid ++ [nlast])).map
        (fun n => (env, request, n)))).1.localDumps, e.1 ≠ n0) ∧
    (runTrace { capacity := cap, localDumps := [], deletedCount := 0 }
      ((n0 :: (mid ++ [nlast])).map (fun n => (env, request, n)))).2 =
      [Event.notify [request.getOutputPath n0],
        Event.removeOk (request.getOutputPath n0), Event.incrDeleted] ∧
    (runTrace { capacity := cap, localDumps := [], deletedCount := 0 }
      ((n0 :: (mid ++ [nlast])).map
        (fun n => (env, request, n)))).1.deletedCount = 1 := by
  have hn0mid : n0 ∉ mid := by
    have hx := (List.nodup_cons.mp hnd).1
    intro hc; exact hx (List.mem_append.mpr (Or.inl hc))
  have hn0last : n0 ≠ nlast := by
    have hx := (List.nodup_cons.mp hnd).1
    intro hc; exact hx (List.mem_append.mpr (Or.inr (by simp [hc])))
  have hmidnd : mid.Nodup :=
    (List.nodup_append.mp (List.nodup_cons.mp hnd).2).1
  have hlastmid : nlast ∉ mid := by
    have hdisj := (List.nodup_append.mp (List.nodup_cons.mp hnd).2).2.2
    intro hc
    exact hdisj hc (by simp)
  have hnd1 : (n0 :: mid).Nodup := List.nodup_cons.mpr ⟨hn0mid, hmidnd⟩
  have hseg := runTrace_fresh env request hok (n0 :: mid)
    { capacity := cap, localDumps := [], deletedCount := 0 } hnd1
    (by intro n hn e he; simp at he)
    (by show 0 + (mid.length + 1) ≤ cap; omega)
  have hseg1 : (runTrace
      { capacity := cap, localDumps := [], deletedCount := 0 }
      ((n0 :: mid).map (fun n => (env, request, n)))).1 =
      { capacity := cap,
        localDumps := ((n0 :: mid).map
          (fun n => (n, [request.getOutputPath n]))).reverse,
        deletedCount := 0 } := by
    rw [hseg]
    simp
  have hseg2 : (runTrace
      { capacity := cap, localDumps := [], deletedCount := 0 }
      ((n0 :: mid).map (fun n => (env, request, n)))).2 = [] := by
    rw [hseg]
  have hfind2 : (((n0 :: mid).map
      (fun n => (n, [request.getOutputPath n]))).reverse).find?
        (fun e => e.1 = nlast) = none := by
    rw [List.find?_eq_none]
    intro e he
    simp only [decide_eq_true_eq]
    rw [List.mem_reverse] at he
    obtain ⟨m, hm, hme⟩ := List.mem_map.mp he
    intro hc
    rw [← hme] at hc
    have hmn : m = nlast := hc
    rcases List.mem_cons.mp hm with hcase | hcase
    · exact hn0last (by rw [← hcase]; exact hmn)
    · exact hlastmid (by rw [← hmn]; exact hcase)
  have hany2 : (((n0 :: mid).map
      (fun n => (n, [request.getOutputPath n]))).reverse).any
        (fun e => e.1 = nlast) = false := by
    rw [List.any_eq_false]
    intro e he
    simp only [decide_eq_true_eq]
    rw [List.mem_reverse] at he
    obtain ⟨m, hm, hme⟩ := List.mem_map.mp he
    intro hc
    rw [← hme] at hc
    have hmn : m = nlast := hc
    rcases List.mem_cons.mp hm with hcase | hcase
    · exact hn0last (by rw [← hcase]; exact hmn)
    · exact hlastmid (by rw [← hmn]; exact hcase)
  have hgl : ((nlast, [request.getOutputPath nlast]) ::
      ((n0 :: mid).map
        (fun n => (n, [request.getOutputPath n]))).reverse).getLast? =
      some (n0, [request.getOutputPath n0]) := by
    rw [List.map_cons, List.reverse_cons, ← List.cons_append,
      List.getLast?_concat]
  have hdl : ((nlast, [request.getOutputPath nlast]) ::
      ((n0 :: mid).map
        (fun n => (n, [request.getOutputPath n]))).reverse).dropLast =
      (nlast, [request.getOutputPath nlast]) ::
        (mid.map (fun n => (n, [request.getOutputPath n]))).reverse := by
    rw [List.map_cons, List.reverse_cons, ← List.cons_append,
      List.dropLast_concat]
  have heqn := addWithEviction_evict true env.removeSucceeds
    { capacity := cap,
      localDumps := ((n0 :: mid).map
        (fun n => (n, [request.getOutputPath n]))).reverse,
      deletedCount := 0 }
    nlast [request.getOutputPath nlast] (n0, [request.getOutputPath n0])
    hany2
    (by show cap < (((n0 :: mid).map
          (fun n => (n, [request.getOutputPath n]))).reverse).length + 1
        rw [List.length_reverse, List.length_map, List.length_cons]
        omega)
    hgl
  have hP2 := Persist_fresh_add
    { capacity := cap,
      localDumps := ((n0 :: mid).map
        (fun n => (n, [request.getOutputPath n]))).reverse,
      deletedCount := 0 }
    env request nlast (by simp [hok.1]) hok.2.1 hok.2.2.1 hok.2.2.2.1
    hok.2.2.2.2.1 hok.2.2.2.2.2 hfind2
  rw [hobs] at hP2
  rw [heqn] at hP2
  have hsplit : (n0 :: (mid ++ [nlast])).map (fun n => (env, request, n)) =
      ((n0 :: mid).map (fun n => (env, request, n))) ++
        [(env, request, nlast)] := by
    simp
  have hlast : runTrace
      { capacity := cap,
        localDumps := ((n0 :: mid).map
          (fun n => (n, [request.getOutputPath n]))).reverse,
        deletedCount := 0 }
      [(env, request, nlast)] =
      ({ capacity := cap,
         localDumps := (nlast, [request.getOutputPath nlast]) ::
           (mid.map (fun n => (n, [request.getOutputPath n]))).reverse,
         deletedCount := 1 },
       [Event.notify [request.getOutputPath n0],
        Event.removeOk (request.getOutputPath n0), Event.incrDeleted]) := by
    simp only [runTrace]
    rw [hP2]
    simp [hdl, hrm, onEvict]
    rw [← List.cons_append, List.dropLast_concat]
  have hfull : runTrace
      { capacity := cap, localDumps := [], deletedCount := 0 }
      ((n0 :: (mid ++ [nlast])).map (fun n => (env, request, n))) =
      ({ capacity := cap,
         localDumps := (nlast, [request.getOutputPath nlast]) ::
           (mid.map (fun n => (n, [request.getOutputPath n]))).reverse,
         deletedCount := 1 },
       [Event.notify [request.getOutputPath n0],
        Event.removeOk (request.getOutputPath n0), Event.incrDeleted]) := by
    rw [hsplit, runTrace_append, hseg1, hseg2, hlast]
    rfl
  refine ⟨?_, ?_, ?_, ?_⟩
  · rw [hfull]
    show ((nlast, [request.getOutputPath nlast]) ::
      (mid.map (fun n => (n, [request.getOutputPath n]))).reverse).length = cap
    rw [List.length_cons, List.length_reverse, List.length_map]
    omega
  · rw [hfull]
    intro e he
    rcases List.mem_cons.mp he with hcase | hcase
    · rw [hcase]
      intro hc
      have hcc : nlast = n0 := hc
      exact hn0last hcc.symm
    · rw [List.mem_reverse] at hcase
      obtain ⟨m, hm, hme⟩ := List.mem_map.mp hcase
      intro hc
      rw [← hme] at hc
      have hmn : m = n0 := hc
      exact hn0mid (by rw [← hmn]; exact hm)
  · rw [hfull]
  · rw [hfull]

/-- Witness for C3: capacity 1, identities a then b; persisting b evicts a
and its file, with the eviction trace emitted by the second call. -/
theorem overflow_evicts_first_inserted_witness :
    (runTrace { capacity := 1, localDumps := [], deletedCount := 0 }
      (("a" :: (([] : List String) ++ ["b"])).map
        (fun n =>
          (({ compressOk := true, createOk := true, chmodOk := true,
              writeOk := true, closeOk := true, renameOk := true,
              hasObserver := true,
              removeSucceeds := fun _ => true } : PersistEnv),
           ({ compression := false, outputDirectory := "d",
              getOutputPath := fun n => n } : StorageRequest),
           n)))).1.localDumps.length = 1 ∧
    (∀ e ∈ (runTrace { capacity := 1, localDumps := [], deletedCount := 0 }
      (("a" :: (([] : List String) ++ ["b"])).map
        (fun n =>
          (({ compressOk := true, createOk := true, chmodOk := true,
              writeOk := true, closeOk := true, renameOk := true,
              hasObserver := true,
              removeSucceeds := fun _ => true } : PersistEnv),
           ({ compression := false, outputDirectory := "d",
              getOutputPath := fun n => n } : StorageRequest),
           n)))).1.localDumps, e.1 ≠ "a") ∧
    (runTrace { capacity := 1, localDumps := [], deletedCount := 0 }
      (("a" :: (([] : List String) ++ ["b"])).map
        (fun n =>
          (({ compressOk := true, createOk := true, chmodOk := true,
              writeOk := true, closeOk := true, renameOk := true,
              hasObserver := true,
              removeSucceeds := fun _ => true } : PersistEnv),
           ({ compression := false, outputDirectory := "d",
              getOutputPath := fun n => n } : StorageRequest),
           n)))).2 =
      [Event.notify ["a"], Event.removeOk "a", Event.incrDeleted] ∧
    (runTrace { capacity := 1, localDumps := [], deletedCount := 0 }
      (("a" :: (([] : List String) ++ ["b"])).map
        (fun n =>
          (({ compressOk := true, createOk := true, chmodOk := true,
              writeOk := true, closeOk := true, renameOk := true,
              hasObserver := true,
              removeSucceeds := fun _ => true } : PersistEnv),
           ({ compression := false, outputDirectory := "d",
              getOutputPath := fun n => n } : StorageRequest),
           n)))).1.deletedCount = 1 :=
  overflow_evicts_first_inserted 1 "a" [] "b"
    { compressOk := true, createOk := true, chmodOk := true,
      writeOk := true, closeOk := true, renameOk := true,
      hasObserver := true, removeSucceeds := fun _ => true }
    { compression := false, outputDirectory := "d",
      getOutputPath := fun n => n }
    rfl (by decide) ⟨rfl, rfl, rfl, rfl, rfl, rfl⟩ rfl rfl
